import Mathlib

/-!
Verification of the loyalty-system points-accounting core against its
specification.  The definitions below are shallow embeddings of the Go
source: the postgres TransactionRepository (CreateTransaction, GetBalance,
WithdrawWithLock), the postgres OrderRepository (UpdateOrderStatus,
GetOrderByNumber, GetPendingOrders), the worker pool (processOrder,
scanPendingOrders, retryProcessor), the balance service (Withdraw) and the
Luhn validator (Validate).  Monetary amounts (Go float64) are modelled as
rationals; database rows are lists; the per-user advisory lock taken inside
the withdrawal transaction serializes all ledger writers for a user, which
is modelled by applying ledger operations as atomic steps in sequence.
-/

namespace Loyalty

/-- TransactionType mirrors domain.TransactionType with its two constants
TransactionTypeAccrual and TransactionTypeWithdrawal. -/
inductive TransactionType where
  | accrual
  | withdrawal
deriving DecidableEq, Repr

/-- Transaction mirrors the domain.Transaction row of the transactions
table: user id, order number label, signed amount, and type.  The id and
processed_at columns play no role in the verified properties and are
omitted. -/
structure Transaction where
  userID : Int
  orderNumber : String
  amount : ℚ
  txType : TransactionType
deriving DecidableEq, Repr

/-- ledgerBalance is the balance query used inside WithdrawWithLock:
SELECT COALESCE(SUM(amount), 0) FROM transactions WHERE user_id = $1. -/
def ledgerBalance (ledger : List Transaction) (userID : Int) : ℚ :=
  ((ledger.filter (fun t => t.userID == userID)).map (fun t => t.amount)).sum

/-- hasAccrualForOrder decides whether the partial unique index
idx_unique_accrual_per_order ON transactions(order_number) WHERE
type = 'accrual' already holds a row for this order number, i.e. whether a
further accrual INSERT would raise error 23505. -/
def hasAccrualForOrder (ledger : List Transaction) (orderNumber : String) : Bool :=
  ledger.any (fun t => t.txType == TransactionType.accrual && t.orderNumber == orderNumber)

/-- CreateTxResult is the outcome of TransactionRepository.CreateTransaction:
nil, or domain.ErrDuplicateAccrual (returned when the INSERT hits 23505 and
the type is accrual). -/
inductive CreateTxResult where
  | ok
  | duplicateAccrual
deriving DecidableEq, Repr

/-- CreateTransaction embeds TransactionRepository.CreateTransaction: a
single INSERT INTO transactions; a unique violation can only come from the
partial accrual index, and is mapped to ErrDuplicateAccrual for accruals. -/
def CreateTransaction (ledger : List Transaction) (userID : Int) (orderNumber : String)
    (amount : ℚ) (txType : TransactionType) : List Transaction × CreateTxResult :=
  if txType = TransactionType.accrual ∧ hasAccrualForOrder ledger orderNumber then
    (ledger, CreateTxResult.duplicateAccrual)
  else
    (ledger ++ [⟨userID, orderNumber, amount, txType⟩], CreateTxResult.ok)

/-- WithdrawResult is the outcome of WithdrawWithLock: nil, or
domain.ErrInsufficientFunds. -/
inductive WithdrawResult where
  | ok
  | insufficientFunds
deriving DecidableEq, Repr

/-- WithdrawWithLock embeds TransactionRepository.WithdrawWithLock.  The Go
function opens a database transaction, takes pg_advisory_xact_lock(userID),
re-reads the balance as SUM(amount) for the user, returns
ErrInsufficientFunds (rolling the transaction back) when balance < amount,
and otherwise inserts one row with amount = -amount and type withdrawal and
commits.  The lock makes the whole unit atomic per user, so it is embedded
as one atomic state transition. -/
def WithdrawWithLock (ledger : List Transaction) (userID : Int) (orderNumber : String)
    (amount : ℚ) : List Transaction × WithdrawResult :=
  let balance := ledgerBalance ledger userID
  if balance < amount then
    (ledger, WithdrawResult.insufficientFunds)
  else
    (ledger ++ [⟨userID, orderNumber, -amount, TransactionType.withdrawal⟩],
      WithdrawResult.ok)

/-- ledgerBalance distributes over appending a single row. -/
theorem ledgerBalance_append (l : List Transaction) (t : Transaction) (uid : Int) :
    ledgerBalance (l ++ [t]) uid =
      ledgerBalance l uid + (if t.userID = uid then t.amount else 0) := by
  unfold ledgerBalance
  rw [List.filter_append, List.map_append, List.sum_append]
  by_cases h : t.userID = uid
  · simp [List.filter_cons, h]
  · simp [List.filter_cons, h]

/-- C2: WithdrawWithLock returns InsufficientFunds exactly when the balance
read under the per-user lock is strictly below the requested amount; in that
case the enclosing transaction rolls back and the ledger is unchanged, and
otherwise exactly one row with amount = -amount and type withdrawal is
appended and committed. -/
theorem withdrawWithLock_spec :
    (∀ (l : List Transaction) (uid : Int) (num : String) (a : ℚ),
      (WithdrawWithLock l uid num a).2 = WithdrawResult.insufficientFunds ↔
        ledgerBalance l uid < a)
    ∧ (∀ (l : List Transaction) (uid : Int) (num : String) (a : ℚ),
      (WithdrawWithLock l uid num a).2 = WithdrawResult.insufficientFunds →
        (WithdrawWithLock l uid num a).1 = l)
    ∧ (∀ (l : List Transaction) (uid : Int) (num : String) (a : ℚ),
      (WithdrawWithLock l uid num a).2 = WithdrawResult.ok →
        (WithdrawWithLock l uid num a).1 =
          l ++ [⟨uid, num, -a, TransactionType.withdrawal⟩]) := by
  refine ⟨fun l uid num a => ?_, fun l uid num a h => ?_, fun l uid num a h => ?_⟩
  · unfold WithdrawWithLock
    by_cases hb : ledgerBalance l uid < a
    · simp [hb]
    · simp [hb]
  · unfold WithdrawWithLock at h ⊢
    by_cases hb : ledgerBalance l uid < a
    · simp [hb]
    · simp [hb] at h
  · unfold WithdrawWithLock at h ⊢
    by_cases hb : ledgerBalance l uid < a
    · simp [hb] at h
    · simp [hb]

/-- withdrawWithLock_spec evaluated at concrete inputs: an empty ledger
cannot cover a withdrawal of 5, and a ledger holding an accrual of 7 can. -/
theorem withdrawWithLock_spec_witness :
    ((WithdrawWithLock [] 1 "2377225624" 5).2 = WithdrawResult.insufficientFunds ↔
        ledgerBalance [] 1 < 5)
    ∧ (WithdrawWithLock [] 1 "2377225624" 5).1 = []
    ∧ (WithdrawWithLock [⟨1, "79927398713", 7, TransactionType.accrual⟩] 1 "2377225624" 5).1 =
        [⟨1, "79927398713", 7, TransactionType.accrual⟩] ++
          [⟨1, "2377225624", -5, TransactionType.withdrawal⟩] := by
  refine ⟨withdrawWithLock_spec.1 [] 1 "2377225624" 5,
    withdrawWithLock_spec.2.1 [] 1 "2377225624" 5 (by norm_num [WithdrawWithLock, ledgerBalance]),
    withdrawWithLock_spec.2.2 [⟨1, "79927398713", 7, TransactionType.accrual⟩]
      1 "2377225624" 5 (by norm_num [WithdrawWithLock, ledgerBalance])⟩

/-- LedgerOp is one serialized write against a user's ledger: an accrual
append issued by the worker pool (CreateTransaction with type accrual) or a
locked withdrawal (WithdrawWithLock).  The per-user advisory lock inside
WithdrawWithLock, together with the atomicity of a single INSERT, serializes
any interleaving of these operations on one account, so a reachable ledger
state is the fold of a list of LedgerOps over the empty ledger. -/
inductive LedgerOp where
  | appendAccrual (userID : Int) (orderNumber : String) (amount : ℚ)
  | withdraw (userID : Int) (orderNumber : String) (amount : ℚ)
deriving DecidableEq, Repr

/-- accrualOk states the side condition under which the pipeline issues an
accrual append: processOrder only calls CreateTransaction when the oracle
accrual is strictly positive. -/
def LedgerOp.accrualOk : LedgerOp → Bool
  | .appendAccrual _ _ a => decide (0 < a)
  | .withdraw _ _ _ => true

/-- applyLedgerOp runs one serialized ledger operation, keeping only the
resulting ledger state (the error outcome does not change the state). -/
def applyLedgerOp (ledger : List Transaction) : LedgerOp → List Transaction
  | .appendAccrual uid num a => (CreateTransaction ledger uid num a TransactionType.accrual).1
  | .withdraw uid num a => (WithdrawWithLock ledger uid num a).1

/-- applyLedgerOps folds a serialized history of ledger operations. -/
def applyLedgerOps (ledger : List Transaction) (ops : List LedgerOp) : List Transaction :=
  ops.foldl applyLedgerOp ledger

/-- accrualCountForOrder counts the rows the partial unique index ranges
over: transactions with type accrual and the given order number. -/
def accrualCountForOrder (ledger : List Transaction) (orderNumber : String) : Nat :=
  (ledger.filter (fun t =>
    t.txType == TransactionType.accrual && t.orderNumber == orderNumber)).length

theorem hasAccrualForOrder_eq_false_iff (ledger : List Transaction) (num : String) :
    hasAccrualForOrder ledger num = false ↔ accrualCountForOrder ledger num = 0 := by
  unfold hasAccrualForOrder accrualCountForOrder
  rw [List.length_eq_zero, List.filter_eq_nil_iff]
  constructor
  · intro h t ht
    have := List.any_eq_false.mp h t ht
    simpa using this
  · intro h
    exact List.any_eq_false.mpr fun t ht => by simpa using h t ht

theorem accrualCountForOrder_append (l : List Transaction) (t : Transaction) (num : String) :
    accrualCountForOrder (l ++ [t]) num =
      accrualCountForOrder l num +
        (if t.txType = TransactionType.accrual ∧ t.orderNumber = num then 1 else 0) := by
  unfold accrualCountForOrder
  rw [List.filter_append, List.length_append]
  by_cases h : t.txType = TransactionType.accrual ∧ t.orderNumber = num
  · simp [List.filter_cons, h.1, h.2]
  · rcases Decidable.not_and_iff_or_not.mp h with h1 | h1 <;> simp [List.filter_cons, h1, h]

/-- applyLedgerOp preserves non-negativity of every user's balance, given
the pipeline's positivity side condition on accruals. -/
theorem applyLedgerOp_balance_nonneg (l : List Transaction) (op : LedgerOp)
    (hop : op.accrualOk = true) (h : ∀ uid : Int, 0 ≤ ledgerBalance l uid) :
    ∀ uid : Int, 0 ≤ ledgerBalance (applyLedgerOp l op) uid := by
  intro uid
  cases op with
  | appendAccrual u num a =>
      have ha : 0 < a := by simpa [LedgerOp.accrualOk] using hop
      simp only [applyLedgerOp, CreateTransaction]
      by_cases hdup : hasAccrualForOrder l num = true
      · simpa [hdup] using h uid
      · have hni : ¬ (True ∧ hasAccrualForOrder l num = true) := by simp [hdup]
        rw [if_neg hni]
        have hgoal : 0 ≤ ledgerBalance
            (l ++ [⟨u, num, a, TransactionType.accrual⟩]) uid := by
          rw [ledgerBalance_append]
          by_cases hu : u = uid
          · subst hu
            have := h u
            rw [if_pos rfl]
            linarith
          · simpa [hu] using h uid
        exact hgoal
  | withdraw u num a =>
      simp only [applyLedgerOp, WithdrawWithLock]
      by_cases hb : ledgerBalance l u < a
      · simpa [hb] using h uid
      · rw [if_neg hb]
        have hgoal : 0 ≤ ledgerBalance
            (l ++ [⟨u, num, -a, TransactionType.withdrawal⟩]) uid := by
          rw [ledgerBalance_append]
          push_neg at hb
          by_cases hu : u = uid
          · subst hu
            rw [if_pos rfl,
              show (⟨u, num, -a, TransactionType.withdrawal⟩ : Transaction).amount = -a from rfl]
            linarith
          · simpa [hu] using h uid
        exact hgoal

/-- applyLedgerOp preserves the bound enforced by the partial unique index:
at most one accrual row per order number. -/
theorem applyLedgerOp_accrualCount (l : List Transaction) (op : LedgerOp)
    (h : ∀ num : String, accrualCountForOrder l num ≤ 1) :
    ∀ num : String, accrualCountForOrder (applyLedgerOp l op) num ≤ 1 := by
  intro num
  cases op with
  | appendAccrual u n a =>
      simp only [applyLedgerOp, CreateTransaction]
      by_cases hdup : hasAccrualForOrder l n = true
      · simpa [hdup] using h num
      · have hfalse : hasAccrualForOrder l n = false := by simpa using hdup
        have hni : ¬ (True ∧ hasAccrualForOrder l n = true) := by simp [hdup]
        rw [if_neg hni]
        have hgoal : accrualCountForOrder
            (l ++ [⟨u, n, a, TransactionType.accrual⟩]) num ≤ 1 := by
          rw [accrualCountForOrder_append]
          by_cases hn : n = num
          · have hzero : accrualCountForOrder l num = 0 := by
              rw [← hn]
              exact (hasAccrualForOrder_eq_false_iff l n).mp hfalse
            simp [hzero, hn]
          · simpa [hn] using h num
        exact hgoal
  | withdraw u n a =>
      simp only [applyLedgerOp, WithdrawWithLock]
      by_cases hb : ledgerBalance l u < a
      · simpa [hb] using h num
      · rw [if_neg hb]
        have hgoal : accrualCountForOrder
            (l ++ [⟨u, n, -a, TransactionType.withdrawal⟩]) num ≤ 1 := by
          rw [accrualCountForOrder_append]
          simpa using h num
        exact hgoal

/-- C1: every ledger state reachable from the empty ledger by a serialized
history of pipeline accruals (with their positive-amount side condition) and
locked withdrawals gives every user a non-negative balance.  The per-user
advisory lock of WithdrawWithLock justifies treating any concurrent
interleaving as such a serialized history. -/
theorem reachable_balance_nonneg (ops : List LedgerOp)
    (hops : ∀ op ∈ ops, op.accrualOk = true) (uid : Int) :
    0 ≤ ledgerBalance (applyLedgerOps [] ops) uid := by
  suffices h : ∀ (l : List Transaction), (∀ u : Int, 0 ≤ ledgerBalance l u) →
      (∀ op ∈ ops, op.accrualOk = true) → ∀ u : Int, 0 ≤ ledgerBalance (applyLedgerOps l ops) u by
    exact h [] (fun _ => le_refl 0) hops uid
  clear hops
  induction ops with
  | nil => intro l h _ u; simpa [applyLedgerOps] using h u
  | cons op rest ih =>
      intro l h hall u
      have hstep := applyLedgerOp_balance_nonneg l op (hall op (List.mem_cons_self op rest)) h
      exact ih (applyLedgerOp l op) hstep
        (fun o ho => hall o (List.mem_cons_of_mem op ho)) u

/-- reachable_balance_nonneg evaluated on a concrete history: an accrual of
500 followed by two withdrawals of 100 and 400 leaves user 1 at balance 0,
which is non-negative. -/
theorem reachable_balance_nonneg_witness :
    (∀ op ∈ [LedgerOp.appendAccrual 1 "79927398713" 500,
        LedgerOp.withdraw 1 "2377225624" 100,
        LedgerOp.withdraw 1 "9278923470" 400], op.accrualOk = true)
    ∧ 0 ≤ ledgerBalance (applyLedgerOps []
        [LedgerOp.appendAccrual 1 "79927398713" 500,
          LedgerOp.withdraw 1 "2377225624" 100,
          LedgerOp.withdraw 1 "9278923470" 400]) 1 := by
  have hops : ∀ op ∈ [LedgerOp.appendAccrual 1 "79927398713" 500,
      LedgerOp.withdraw 1 "2377225624" 100,
      LedgerOp.withdraw 1 "9278923470" 400], LedgerOp.accrualOk op = true := by
    intro op hop
    fin_cases hop <;> norm_num [LedgerOp.accrualOk]
  exact ⟨hops, reachable_balance_nonneg _ hops 1⟩

/-- C3: an accrual append that succeeded makes any later accrual append for
the same order number a no-op returning the distinguishable DuplicateAccrual
outcome, with the ledger unchanged and the balance incremented exactly once;
and every reachable ledger state carries at most one accrual row per order
number, as enforced by the partial unique index
idx_unique_accrual_per_order. -/
theorem createTransaction_dedup_unique (l : List Transaction) (uid uid2 : Int)
    (num : String) (a a2 : ℚ)
    (hok : (CreateTransaction l uid num a TransactionType.accrual).2 = CreateTxResult.ok) :
    (CreateTransaction (CreateTransaction l uid num a TransactionType.accrual).1
        uid2 num a2 TransactionType.accrual =
      ((CreateTransaction l uid num a TransactionType.accrual).1,
        CreateTxResult.duplicateAccrual))
    ∧ ledgerBalance (CreateTransaction l uid num a TransactionType.accrual).1 uid =
        ledgerBalance l uid + a
    ∧ (∀ (ops : List LedgerOp) (n : String),
        accrualCountForOrder (applyLedgerOps [] ops) n ≤ 1) := by
  have hfirst : (CreateTransaction l uid num a TransactionType.accrual).1 =
      l ++ [⟨uid, num, a, TransactionType.accrual⟩] := by
    unfold CreateTransaction at hok ⊢
    by_cases hdup : hasAccrualForOrder l num = true
    · simp [hdup] at hok
    · simp [hdup]
  refine ⟨?_, ?_, ?_⟩
  · rw [hfirst]
    unfold CreateTransaction
    have hdup2 : hasAccrualForOrder (l ++ [⟨uid, num, a, TransactionType.accrual⟩]) num = true := by
      unfold hasAccrualForOrder
      rw [List.any_append]
      simp
    rw [if_pos ⟨rfl, hdup2⟩]
  · rw [hfirst, ledgerBalance_append]
    simp
  · intro ops n
    suffices h : ∀ (start : List Transaction),
        (∀ m : String, accrualCountForOrder start m ≤ 1) →
        ∀ m : String, accrualCountForOrder (applyLedgerOps start ops) m ≤ 1 by
      refine h [] (fun m => ?_) n
      simp [accrualCountForOrder]
    induction ops with
    | nil => intro start h m; simpa [applyLedgerOps] using h m
    | cons op rest ih =>
        intro start h m
        exact ih (applyLedgerOp start op) (applyLedgerOp_accrualCount start op h) m

/-- createTransaction_dedup_unique evaluated on the empty ledger: the first
accrual for order 79927398713 succeeds and the duplicate is rejected. -/
theorem createTransaction_dedup_unique_witness :
    (CreateTransaction (CreateTransaction [] 1 "79927398713" 500 TransactionType.accrual).1
        2 "79927398713" 500 TransactionType.accrual =
      ((CreateTransaction [] 1 "79927398713" 500 TransactionType.accrual).1,
        CreateTxResult.duplicateAccrual))
    ∧ ledgerBalance (CreateTransaction [] 1 "79927398713" 500 TransactionType.accrual).1 1 =
        ledgerBalance [] 1 + 500 := by
  have h := createTransaction_dedup_unique [] 1 2 "79927398713" 500 500
    (by norm_num [CreateTransaction, hasAccrualForOrder])
  exact ⟨h.1, h.2.1⟩

/-- stripSpaces models strings.ReplaceAll(number, " ", "") as the character
sequence of the resulting string. -/
def stripSpaces (s : String) : List Char :=
  s.data.filter (fun c => !(c == ' '))

/-- atoiDigit models strconv.Atoi applied to the one-byte string built from
one character of an all-digit string: it succeeds with the digit value on an
ASCII digit and fails otherwise (the Go caller ignores the error, in which
case Atoi yields 0). -/
def atoiDigit (c : Char) : Option Nat :=
  if '0' ≤ c ∧ c ≤ '9' then some (c.toNat - '0'.toNat) else none

/-- luhnLoop transcribes the checksum loop of luhn.Validate.  The Go loop
walks the string from its last byte to its first with isSecond starting
false, so the loop is applied to the reversed character list. -/
def luhnLoop : List Char → Bool → Nat
  | [], _ => 0
  | c :: rest, isSecond =>
      let digit := (atoiDigit c).getD 0
      let digit := if isSecond then
          (if digit * 2 > 9 then digit * 2 - 9 else digit * 2)
        else digit
      digit + luhnLoop rest (!isSecond)

/-- Validate embeds luhn.Validate: remove spaces, reject the empty result,
reject any rune outside the ASCII digits, then accept exactly when the Luhn
sum is divisible by 10. -/
def Validate (number : String) : Bool :=
  let cs := stripSpaces number
  if cs.length = 0 then false
  else if cs.any (fun c => c < '0' || '9' < c) then false
  else decide (luhnLoop cs.reverse false % 10 = 0)

/-- doubleRule is the wording of the specification checksum: double the
digit and subtract 9 when the doubled digit exceeds 9. -/
def doubleRule (d : Nat) : Nat :=
  if d * 2 > 9 then d * 2 - 9 else d * 2

/-- digitVal is the numeric value of an ASCII digit character. -/
def digitVal (c : Char) : Nat := c.toNat - '0'.toNat

/-- luhnSpecSum is the specification checksum over digit values listed from
the right: every second digit from the right (odd position) goes through
doubleRule, the rest are added as they are. -/
def luhnSpecSum (ds : List Nat) : Nat :=
  (ds.enum.map (fun p => if p.1 % 2 = 1 then doubleRule p.2 else p.2)).sum

theorem not_decide_mod_two (k : Nat) :
    (!decide (k % 2 = 1)) = decide ((k + 1) % 2 = 1) := by
  rcases Nat.mod_two_eq_zero_or_one k with h | h
  · simp [Nat.add_mod, h]
  · simp [Nat.add_mod, h]

theorem luhnLoop_eq_spec (l : List Char) (k : Nat)
    (hd : ∀ c ∈ l, '0' ≤ c ∧ c ≤ '9') :
    luhnLoop l (decide (k % 2 = 1)) =
      (((l.map digitVal).enumFrom k).map
        (fun p => if p.1 % 2 = 1 then doubleRule p.2 else p.2)).sum := by
  induction l generalizing k with
  | nil => simp [luhnLoop]
  | cons c rest ih =>
      have hc := hd c (List.mem_cons_self c rest)
      have hdigit : (atoiDigit c).getD 0 = digitVal c := by
        simp [atoiDigit, hc, digitVal]
      have hrest : ∀ x ∈ rest, '0' ≤ x ∧ x ≤ '9' :=
        fun x hx => hd x (List.mem_cons_of_mem c hx)
      simp only [luhnLoop, List.map_cons, List.enumFrom_cons, List.sum_cons, hdigit,
        not_decide_mod_two, ih (k + 1) hrest]
      by_cases hk : k % 2 = 1
      · simp [hk, doubleRule]
      · simp [hk]

/-- C7: Validate strips ASCII spaces, returns false on an empty or
non-digit result, otherwise answers exactly the Luhn checksum criterion
(double every second digit from the right, subtract 9 when the doubled
digit exceeds 9, total divisible by 10); the six known-good numbers
validate true and each of them with its final digit incremented modulo 10
validates false. -/
theorem validate_spec :
    (∀ s : String, stripSpaces s = [] → Validate s = false)
    ∧ (∀ s : String, (∃ c ∈ stripSpaces s, c < '0' ∨ '9' < c) → Validate s = false)
    ∧ (∀ s : String, stripSpaces s ≠ [] → (∀ c ∈ stripSpaces s, '0' ≤ c ∧ c ≤ '9') →
        (Validate s = true ↔
          luhnSpecSum ((stripSpaces s).reverse.map digitVal) % 10 = 0))
    ∧ (Validate "79927398713" = true ∧ Validate "12345678903" = true ∧
        Validate "2377225624" = true ∧ Validate "9278923470" = true ∧
        Validate "4561261212345467" = true ∧ Validate "4561 2612 1234 5467" = true)
    ∧ (Validate "79927398714" = false ∧ Validate "12345678904" = false ∧
        Validate "2377225625" = false ∧ Validate "9278923471" = false ∧
        Validate "4561261212345468" = false ∧ Validate "4561 2612 1234 5468" = false) := by
  refine ⟨?_, ?_, ?_, ?_, ?_⟩
  · intro s h
    simp [Validate, h]
  · intro s h
    rcases h with ⟨c, hc, hlt⟩
    have hany : (stripSpaces s).any (fun c => c < '0' || '9' < c) = true := by
      rw [List.any_eq_true]
      exact ⟨c, hc, by simpa using hlt⟩
    unfold Validate
    by_cases hlen : (stripSpaces s).length = 0
    · simp [hlen]
    · simp [hlen, hany]
  · intro s hne hd
    have hlen : ¬ (stripSpaces s).length = 0 := by
      simpa [List.length_eq_zero] using hne
    have hany : (stripSpaces s).any (fun c => c < '0' || '9' < c) = false := by
      rw [List.any_eq_false]
      intro c hc
      have := hd c hc
      simp only [Bool.or_eq_true, decide_eq_true_eq, not_or]
      exact ⟨not_lt.mpr this.1, not_lt.mpr this.2⟩
    have hrev : ∀ c ∈ (stripSpaces s).reverse, '0' ≤ c ∧ c ≤ '9' :=
      fun c hc => hd c (List.mem_reverse.mp hc)
    have hloop := luhnLoop_eq_spec (stripSpaces s).reverse 0 hrev
    unfold Validate
    rw [if_neg hlen, if_neg (by simp [hany])]
    have hfalse : (decide ((0 : Nat) % 2 = 1)) = false := by decide
    rw [hfalse] at hloop
    rw [hloop]
    unfold luhnSpecSum
    rw [List.enum]
    simp
  · exact ⟨by decide, by decide, by decide, by decide, by decide, by decide⟩
  · exact ⟨by decide, by decide, by decide, by decide, by decide, by decide⟩

/-- validate_spec applied at concrete inputs: an all-space string and a
string holding a letter are rejected, and the checksum criterion is
obtained for the first known-good number. -/
theorem validate_spec_witness :
    Validate "   " = false ∧ Validate "12a" = false ∧
      (Validate "79927398713" = true ↔
        luhnSpecSum ((stripSpaces "79927398713").reverse.map digitVal) % 10 = 0) := by
  refine ⟨validate_spec.1 "   " (by decide),
    validate_spec.2.1 "12a" ⟨'a', by decide, by decide⟩,
    validate_spec.2.2.1 "79927398713" (by decide) (by decide)⟩

/-- C10: once the per-rune digit check of Validate has passed, every
character reaching the checksum loop is an ASCII digit, so the ignored
error branch of strconv.Atoi is unreachable: atoiDigit returns some value,
that value is the digit's numeric value, and the 0 fallback used for the
ignored error is never what the loop adds. -/
theorem atoi_digit_branch_total (s : String)
    (hd : ∀ c ∈ stripSpaces s, '0' ≤ c ∧ c ≤ '9') :
    ∀ c ∈ (stripSpaces s).reverse,
      atoiDigit c = some (digitVal c) ∧ (atoiDigit c).getD 0 = digitVal c := by
  intro c hc
  have hc2 := hd c (List.mem_reverse.mp hc)
  have h1 : atoiDigit c = some (digitVal c) := by
    simp [atoiDigit, hc2, digitVal]
  exact ⟨h1, by rw [h1]; rfl⟩

/-- atoi_digit_branch_total evaluated on a concrete all-digit input at the
character 7 of the first known-good number. -/
theorem atoi_digit_branch_total_witness :
    atoiDigit '7' = some (digitVal '7') ∧ (atoiDigit '7').getD 0 = digitVal '7' :=
  atoi_digit_branch_total "79927398713" (by decide) '7' (by decide)

/-- OrderStatus mirrors the Go string type domain.OrderStatus; the four
declared constants follow, but as in Go any string can inhabit the type. -/
abbrev OrderStatus := String

/-- OrderStatusNew is the NEW constant. -/
def OrderStatusNew : OrderStatus := "NEW"

/-- OrderStatusProcessing is the PROCESSING constant. -/
def OrderStatusProcessing : OrderStatus := "PROCESSING"

/-- OrderStatusInvalid is the INVALID constant. -/
def OrderStatusInvalid : OrderStatus := "INVALID"

/-- OrderStatusProcessed is the PROCESSED constant. -/
def OrderStatusProcessed : OrderStatus := "PROCESSED"

/-- Order mirrors the domain.Order row: owner, globally unique number,
status and optional accrual.  The id and uploaded_at columns are omitted;
the list order of the store stands in for the uploaded_at ordering. -/
structure Order where
  userID : Int
  number : String
  status : OrderStatus
  accrual : Option ℚ
deriving DecidableEq, Repr

/-- UpdateOrderStatus embeds OrderRepository.UpdateOrderStatus: an
unconditional UPDATE orders SET status, accrual WHERE number = $3; the Bool
reports whether a row was affected (false is ErrOrderNotFound). -/
def UpdateOrderStatus (orders : List Order) (number : String) (status : OrderStatus)
    (accrual : Option ℚ) : List Order × Bool :=
  if orders.any (fun o => o.number == number) then
    (orders.map (fun o =>
      if o.number == number then { o with status := status, accrual := accrual } else o),
      true)
  else (orders, false)

/-- GetOrderByNumber embeds OrderRepository.GetOrderByNumber: SELECT the
row with the given number, ErrOrderNotFound when absent. -/
def GetOrderByNumber (orders : List Order) (number : String) : Option Order :=
  orders.find? (fun o => o.number == number)

/-- GetPendingOrders embeds OrderRepository.GetPendingOrders: the rows
whose status is NEW or PROCESSING, oldest first. -/
def GetPendingOrders (orders : List Order) : List Order :=
  orders.filter (fun o =>
    o.status == OrderStatusNew || o.status == OrderStatusProcessing)

/-- statusOf reads the stored status of an order number. -/
def statusOf (orders : List Order) (number : String) : Option OrderStatus :=
  (GetOrderByNumber orders number).map (fun o => o.status)

/-- isTerminal recognizes the two terminal statuses of the state machine. -/
def isTerminal (st : OrderStatus) : Bool :=
  st == OrderStatusProcessed || st == OrderStatusInvalid

/-- GetOrderAccrualResult is the tagged outcome of
AccrualClient.GetOrderAccrual: a decoded AccrualResponse on HTTP 200 (its
status is whatever string the oracle sent), the nil response on 204, a
RateLimitError carrying the Retry-After seconds on 429, or any other error
(transport failure, bad JSON, unexpected code). -/
inductive GetOrderAccrualResult where
  | response (order : String) (status : OrderStatus) (accrual : Option ℚ)
  | notRegistered
  | rateLimitErr (retryAfter : Nat)
  | otherErr
deriving DecidableEq, Repr

/-- hasPositiveAccrual is the guard of the accrual append in processOrder:
accrualResp.Accrual != nil && *accrualResp.Accrual > 0. -/
def hasPositiveAccrual : Option ℚ → Bool
  | some a => decide (0 < a)
  | none => false

/-- PoolState gathers the state touched by the worker pool: the orders
table, the transactions ledger, the buffered work queue (chan string with
capacity queueCap), and the buffered retry queue (chan retryItem with
capacity retryCap). -/
structure PoolState where
  orders : List Order
  ledger : List Transaction
  queue : List String
  retryQueue : List (String × Nat)
  queueCap : Nat
  retryCap : Nat
deriving DecidableEq, Repr

/-- processOrder embeds Pool.processOrder.  On a RateLimitError the pair
(orderNumber, now + retryAfter) is offered to the retry queue with a
non-blocking send (dropped when the buffer is full), nothing else happens
and the worker returns at once; other errors are logged and dropped; a 204
updates the status to PROCESSING; a 200 response stores the reported status
and accrual verbatim via UpdateOrderStatus (returning on its error), and
when the reported status is PROCESSED with a positive accrual the order is
looked up and the accrual transaction appended, ErrDuplicateAccrual being
swallowed. -/
def processOrder (s : PoolState) (now : Nat) (orderNumber : String)
    (resp : GetOrderAccrualResult) : PoolState :=
  match resp with
  | .rateLimitErr d =>
      if s.retryQueue.length < s.retryCap then
        { s with retryQueue := s.retryQueue ++ [(orderNumber, now + d)] }
      else s
  | .otherErr => s
  | .notRegistered =>
      { s with orders :=
          (UpdateOrderStatus s.orders orderNumber OrderStatusProcessing none).1 }
  | .response _ status accrual =>
      let upd := UpdateOrderStatus s.orders orderNumber status accrual
      if upd.2 = false then s
      else
        let s1 := { s with orders := upd.1 }
        if status == OrderStatusProcessed && hasPositiveAccrual accrual then
          match GetOrderByNumber s1.orders orderNumber with
          | none => s1
          | some o =>
              { s1 with ledger := (CreateTransaction s1.ledger o.userID orderNumber
                  (accrual.getD 0) TransactionType.accrual).1 }
        else s1

/-- scanPendingOrders embeds Pool.scanPendingOrders: every pending order
number is offered to the work queue with a non-blocking send, the number
being dropped when the buffer is full. -/
def scanPendingOrders (s : PoolState) : PoolState :=
  (GetPendingOrders s.orders).foldl
    (fun st o =>
      if st.queue.length < st.queueCap then { st with queue := st.queue ++ [o.number] }
      else st) s

/-- PoolStep is one atomic act of the pipeline: a scanner tick, a worker
dequeuing the head of the work queue and processing it against one oracle
outcome at some time, or the retry processor taking the head retry item,
waiting out its retryAfter, and offering it to the work queue with a
non-blocking send (the item is dropped when the queue is full). -/
inductive PoolStep where
  | scan
  | work (resp : GetOrderAccrualResult) (now : Nat)
  | retryMove
deriving DecidableEq, Repr

/-- applyPoolStep runs one pipeline step. -/
def applyPoolStep (s : PoolState) : PoolStep → PoolState
  | .scan => scanPendingOrders s
  | .work resp now =>
      match s.queue with
      | [] => s
      | num :: rest => processOrder { s with queue := rest } now num resp
  | .retryMove =>
      match s.retryQueue with
      | [] => s
      | (num, _notBefore) :: rest =>
          if s.queue.length < s.queueCap then
            { s with retryQueue := rest, queue := s.queue ++ [num] }
          else { s with retryQueue := rest }

/-- applyPoolSteps folds a sequence of pipeline steps. -/
def applyPoolSteps (s : PoolState) (steps : List PoolStep) : PoolState :=
  steps.foldl applyPoolStep s

/-- respWrittenStatus gives the status processOrder writes to the store for
one oracle outcome, if any: the verbatim reported status on 200, PROCESSING
on 204, and nothing on rate limits and other errors. -/
def respWrittenStatus : GetOrderAccrualResult → Option OrderStatus
  | .response _ st _ => some st
  | .notRegistered => some OrderStatusProcessing
  | .rateLimitErr _ => none
  | .otherErr => none

/-- respWrittenAccrual gives the accrual pointer processOrder hands to
UpdateOrderStatus for one oracle outcome. -/
def respWrittenAccrual : GetOrderAccrualResult → Option ℚ
  | .response _ _ a => a
  | _ => none

theorem updateOrderStatus_false (orders : List Order) (num : String)
    (st : OrderStatus) (a : Option ℚ)
    (h : (UpdateOrderStatus orders num st a).2 = false) :
    (UpdateOrderStatus orders num st a).1 = orders := by
  unfold UpdateOrderStatus at h ⊢
  by_cases hany : orders.any (fun o => o.number == num) = true
  · simp [hany] at h
  · simp [hany]

theorem processOrder_orders (s : PoolState) (now : Nat) (num : String)
    (resp : GetOrderAccrualResult) :
    (processOrder s now num resp).orders =
      match respWrittenStatus resp with
      | none => s.orders
      | some st => (UpdateOrderStatus s.orders num st (respWrittenAccrual resp)).1 := by
  cases resp with
  | rateLimitErr d =>
      simp only [processOrder, respWrittenStatus]
      by_cases h : s.retryQueue.length < s.retryCap
      · rw [if_pos h]
      · rw [if_neg h]
  | otherErr => rfl
  | notRegistered => rfl
  | response o st a =>
      simp only [processOrder, respWrittenStatus, respWrittenAccrual]
      by_cases hupd : (UpdateOrderStatus s.orders num st a).2 = false
      · rw [if_pos hupd, updateOrderStatus_false s.orders num st a hupd]
      · rw [if_neg hupd]
        by_cases hc : (st == OrderStatusProcessed && hasPositiveAccrual a) = true
        · rw [if_pos hc]
          cases hfind : GetOrderByNumber (UpdateOrderStatus s.orders num st a).1 num with
          | none => simp [hfind]
          | some o2 => simp [hfind]
        · rw [if_neg hc]

theorem processOrder_retryQueue_of_written (s : PoolState) (now : Nat) (num : String)
    (resp : GetOrderAccrualResult) :
    (processOrder s now num resp).retryQueue = s.retryQueue ∨
      respWrittenStatus resp = none := by
  cases resp with
  | rateLimitErr d => exact Or.inr rfl
  | otherErr => exact Or.inr rfl
  | notRegistered => exact Or.inl rfl
  | response o st a =>
      left
      simp only [processOrder]
      by_cases hupd : (UpdateOrderStatus s.orders num st a).2 = false
      · rw [if_pos hupd]
      · rw [if_neg hupd]
        by_cases hc : (st == OrderStatusProcessed && hasPositiveAccrual a) = true
        · rw [if_pos hc]
          cases hfind : GetOrderByNumber (UpdateOrderStatus s.orders num st a).1 num with
          | none => rfl
          | some o2 => rfl
        · rw [if_neg hc]

theorem find?_update_map (orders : List Order) (num : String) (st : OrderStatus)
    (a : Option ℚ) :
    (orders.map (fun o =>
        if o.number == num then { o with status := st, accrual := a } else o)).find?
      (fun o => o.number == num) =
      (orders.find? (fun o => o.number == num)).map
        (fun o => { o with status := st, accrual := a }) := by
  induction orders with
  | nil => rfl
  | cons o rest ih =>
      by_cases hb : o.number = num
      · simp [List.find?_cons, hb, -List.find?_map]
      · simp [List.find?_cons, hb, -List.find?_map]
        simp only [beq_iff_eq] at ih
        exact ih

theorem statusOf_update (orders : List Order) (num : String) (st : OrderStatus)
    (a : Option ℚ) :
    statusOf (UpdateOrderStatus orders num st a).1 num =
      if (statusOf orders num).isSome then some st else none := by
  unfold statusOf UpdateOrderStatus GetOrderByNumber
  by_cases hany : orders.any (fun o => o.number == num) = true
  · rw [if_pos hany]
    simp only [find?_update_map]
    have hsome : (orders.find? (fun o => o.number == num)).isSome := by
      rw [List.find?_isSome]
      simpa using List.any_eq_true.mp hany
    cases hfind : orders.find? (fun o => o.number == num) with
    | none => rw [hfind] at hsome; simp at hsome
    | some o => simp [hfind]
  · rw [if_neg hany]
    have hnone : orders.find? (fun o => o.number == num) = none := by
      rw [List.find?_eq_none]
      intro o ho hpo
      exact hany (List.any_eq_true.mpr ⟨o, ho, hpo⟩)
    simp [hnone]

theorem statusOf_processOrder (s : PoolState) (now : Nat) (num : String)
    (resp : GetOrderAccrualResult) :
    statusOf (processOrder s now num resp).orders num =
      match respWrittenStatus resp with
      | none => statusOf s.orders num
      | some st => if (statusOf s.orders num).isSome then some st else none := by
  rw [processOrder_orders]
  cases resp with
  | rateLimitErr d => rfl
  | otherErr => rfl
  | notRegistered => exact statusOf_update s.orders num OrderStatusProcessing none
  | response o st a => exact statusOf_update s.orders num st a

/-- oneNewOrderState is a store holding a single order in status NEW with
empty ledger and queues. -/
def oneNewOrderState : PoolState :=
  ⟨[⟨1, "79927398713", OrderStatusNew, none⟩], [], [], [], 100, 100⟩

/-- C4 fails as stated: UpdateOrderStatus is an unconditional UPDATE and
processOrder persists whatever status the oracle reports, so processing the
oracle response sequence PROCESSED then PROCESSING moves the stored status
out of the terminal PROCESSED state. -/
theorem status_regression_counterexample :
    statusOf (processOrder oneNewOrderState 0 "79927398713"
        (GetOrderAccrualResult.response "79927398713" OrderStatusProcessed none)).orders
      "79927398713" = some OrderStatusProcessed
    ∧ statusOf (processOrder (processOrder oneNewOrderState 0 "79927398713"
          (GetOrderAccrualResult.response "79927398713" OrderStatusProcessed none))
        0 "79927398713"
        (GetOrderAccrualResult.response "79927398713" OrderStatusProcessing none)).orders
      "79927398713" = some OrderStatusProcessing := by
  constructor
  · decide
  · decide

/-- C4 amended: the store keeps no guard, so monotonicity holds exactly when
the processed oracle outcomes never write a non-terminal status over a
terminal one: for any outcome sequence each element of which either writes
no status (rate limit, transient error) or writes a terminal status, an
order whose stored status is terminal keeps a terminal status. -/
theorem terminal_status_preserved (s : PoolState) (num : String)
    (resps : List (GetOrderAccrualResult × Nat))
    (hterm : ∃ st, statusOf s.orders num = some st ∧ isTerminal st = true)
    (hresps : ∀ r ∈ resps, respWrittenStatus r.1 = none ∨
        ∃ st, respWrittenStatus r.1 = some st ∧ isTerminal st = true) :
    ∃ st2, statusOf (resps.foldl (fun t r => processOrder t r.2 num r.1) s).orders num
        = some st2 ∧ isTerminal st2 = true := by
  induction resps generalizing s with
  | nil => simpa using hterm
  | cons r rest ih =>
      rcases hterm with ⟨st, hst, htermst⟩
      have hstep : ∃ st2, statusOf (processOrder s r.2 num r.1).orders num = some st2
          ∧ isTerminal st2 = true := by
        rw [statusOf_processOrder]
        rcases hresps r (List.mem_cons_self r rest) with hnone | ⟨st2, hw, hterm2⟩
        · rw [hnone]
          exact ⟨st, hst, htermst⟩
        · rw [hw]
          refine ⟨st2, ?_, hterm2⟩
          rw [hst]
          rfl
      exact ih (processOrder s r.2 num r.1) hstep
        (fun x hx => hresps x (List.mem_cons_of_mem r hx))

/-- terminal_status_preserved applied concretely: an order stored PROCESSED
stays terminal across a rate limit and a repeated PROCESSED verdict. -/
theorem terminal_status_preserved_witness :
    ∃ st2, statusOf
        (([(GetOrderAccrualResult.rateLimitErr 60, 0),
            (GetOrderAccrualResult.response "79927398713" OrderStatusProcessed none, 1)]).foldl
          (fun t r => processOrder t r.2 "79927398713" r.1)
          ⟨[⟨1, "79927398713", OrderStatusProcessed, none⟩], [], [], [], 100, 100⟩).orders
        "79927398713" = some st2 ∧ isTerminal st2 = true := by
  refine terminal_status_preserved _ _ _ ⟨OrderStatusProcessed, by decide, by decide⟩ ?_
  intro r hr
  fin_cases hr
  · exact Or.inl rfl
  · exact Or.inr ⟨OrderStatusProcessed, rfl, by decide⟩

theorem processOrder_store_only (s t : PoolState) (h1 : s.orders = t.orders)
    (h2 : s.ledger = t.ledger) (now : Nat) (num : String)
    (resp : GetOrderAccrualResult) :
    (processOrder s now num resp).orders = (processOrder t now num resp).orders
    ∧ (processOrder s now num resp).ledger = (processOrder t now num resp).ledger := by
  cases resp with
  | rateLimitErr d =>
      constructor
      · by_cases hs : s.retryQueue.length < s.retryCap <;>
          by_cases ht : t.retryQueue.length < t.retryCap <;>
            simp [processOrder, hs, ht, h1]
      · by_cases hs : s.retryQueue.length < s.retryCap <;>
          by_cases ht : t.retryQueue.length < t.retryCap <;>
            simp [processOrder, hs, ht, h2]
  | otherErr => exact ⟨h1, h2⟩
  | notRegistered =>
      constructor
      · simp [processOrder, h1]
      · simp [processOrder, h2]
  | response o st a =>
      simp only [processOrder, h1, h2]
      by_cases hupd : (UpdateOrderStatus t.orders num st a).2 = false
      · rw [if_pos hupd, if_pos hupd]
        exact ⟨h1, h2⟩
      · rw [if_neg hupd, if_neg hupd]
        by_cases hc : (st == OrderStatusProcessed && hasPositiveAccrual a) = true
        · rw [if_pos hc, if_pos hc]
          cases hfind : GetOrderByNumber (UpdateOrderStatus t.orders num st a).1 num with
          | none => simp [hfind]
          | some o2 => simp [hfind]
        · rw [if_neg hc, if_neg hc]
          exact ⟨rfl, rfl⟩

/-- C5: on a RateLimitError the worker writes no status and no ledger row,
leaves the work queue alone, offers (number, now + retryAfter) to the retry
queue non-blockingly (dropping the pair when that queue is full), and
returns at once: processing any other order immediately afterwards, at the
same instant, has exactly the store effects it would have had without the
rate-limited call, so queued orders are serviced without waiting out the
retry delay. -/
theorem rateLimit_nonblocking (s : PoolState) (now d : Nat) (num : String) :
    (processOrder s now num (GetOrderAccrualResult.rateLimitErr d)).orders = s.orders
    ∧ (processOrder s now num (GetOrderAccrualResult.rateLimitErr d)).ledger = s.ledger
    ∧ (processOrder s now num (GetOrderAccrualResult.rateLimitErr d)).queue = s.queue
    ∧ (processOrder s now num (GetOrderAccrualResult.rateLimitErr d)).retryQueue =
        (if s.retryQueue.length < s.retryCap then s.retryQueue ++ [(num, now + d)]
          else s.retryQueue)
    ∧ ∀ (num2 : String) (resp2 : GetOrderAccrualResult),
        (processOrder (processOrder s now num (GetOrderAccrualResult.rateLimitErr d))
            now num2 resp2).orders = (processOrder s now num2 resp2).orders
        ∧ (processOrder (processOrder s now num (GetOrderAccrualResult.rateLimitErr d))
            now num2 resp2).ledger = (processOrder s now num2 resp2).ledger := by
  have horders : (processOrder s now num (GetOrderAccrualResult.rateLimitErr d)).orders
      = s.orders := by
    by_cases h : s.retryQueue.length < s.retryCap <;> simp [processOrder, h]
  have hledger : (processOrder s now num (GetOrderAccrualResult.rateLimitErr d)).ledger
      = s.ledger := by
    by_cases h : s.retryQueue.length < s.retryCap <;> simp [processOrder, h]
  refine ⟨horders, hledger, ?_, ?_, ?_⟩
  · by_cases h : s.retryQueue.length < s.retryCap <;> simp [processOrder, h]
  · by_cases h : s.retryQueue.length < s.retryCap <;> simp [processOrder, h]
  · intro num2 resp2
    exact processOrder_store_only _ s horders hledger now num2 resp2

/-- C6: the worker has no REGISTERED-to-PROCESSING mapping: a 200 verdict
carrying the oracle status REGISTERED is persisted verbatim by the
unconditional UpdateOrderStatus, the store then holds the out-of-enum
status REGISTERED instead of PROCESSING, and the order disappears from the
pending set that the scanner re-polls. -/
theorem registered_persisted_verbatim :
    statusOf (processOrder oneNewOrderState 0 "79927398713"
        (GetOrderAccrualResult.response "79927398713" "REGISTERED" none)).orders
      "79927398713" = some "REGISTERED"
    ∧ statusOf (processOrder oneNewOrderState 0 "79927398713"
        (GetOrderAccrualResult.response "79927398713" "REGISTERED" none)).orders
      "79927398713" ≠ some OrderStatusProcessing
    ∧ GetPendingOrders (processOrder oneNewOrderState 0 "79927398713"
        (GetOrderAccrualResult.response "79927398713" "REGISTERED" none)).orders = [] := by
  refine ⟨by decide, by decide, by decide⟩

/-- ServiceError models the error values the balance service can return:
the package-level sentinels, which upstream layers compare by identity with
errors.Is, and fresh fmt.Errorf values, which are equal to no sentinel. -/
inductive ServiceError where
  | errInvalidOrderNumber
  | errInsufficientFunds
  | formattedErr (msg : String)
deriving DecidableEq, Repr

/-- isSentinel is true exactly for the package-level sentinel errors; a
fresh fmt.Errorf value is not identity-comparable to any sentinel. -/
def ServiceError.isSentinel : ServiceError → Bool
  | .formattedErr _ => false
  | _ => true

/-- BalanceServiceWithdraw embeds BalanceService.Withdraw: reject an order
number failing luhn.Validate with the sentinel ErrInvalidOrderNumber;
reject amount <= 0 with a fresh fmt.Errorf value; otherwise call
WithdrawWithLock, passing ErrInsufficientFunds through unwrapped.  The Bool
records whether the repository withdrawal was invoked. -/
def BalanceServiceWithdraw (ledger : List Transaction) (userID : Int)
    (orderNumber : String) (amount : ℚ) :
    List Transaction × Option ServiceError × Bool :=
  if !Validate orderNumber then
    (ledger, some ServiceError.errInvalidOrderNumber, false)
  else if amount ≤ 0 then
    (ledger, some (ServiceError.formattedErr "balance service: invalid withdrawal amount"),
      false)
  else
    match WithdrawWithLock ledger userID orderNumber amount with
    | (_, WithdrawResult.insufficientFunds) =>
        (ledger, some ServiceError.errInsufficientFunds, true)
    | (l2, WithdrawResult.ok) => (l2, none, true)

/-- C8 fails as stated: withdrawing a non-positive amount is rejected
without touching the store, but the error is a fresh fmt.Errorf value, not
an identity-comparable InvalidAmount sentinel. -/
theorem invalid_amount_not_sentinel_counterexample :
    BalanceServiceWithdraw [] 1 "79927398713" 0 =
      ([], some (ServiceError.formattedErr "balance service: invalid withdrawal amount"),
        false)
    ∧ (ServiceError.formattedErr "balance service: invalid withdrawal amount").isSentinel
        = false := by
  constructor
  · have hval : Validate "79927398713" = true := by decide
    unfold BalanceServiceWithdraw
    rw [hval]
    norm_num
  · rfl

/-- C8 amended: an order number failing Luhn is rejected with the sentinel
ErrInvalidOrderNumber and a non-positive amount with a generic fmt.Errorf
error that is not identity-comparable to any sentinel; in both cases the
ledger store withdrawal is not invoked and the ledger is unchanged. -/
theorem withdraw_validation_spec :
    (∀ (ledger : List Transaction) (uid : Int) (num : String) (a : ℚ),
      Validate num = false →
        BalanceServiceWithdraw ledger uid num a =
          (ledger, some ServiceError.errInvalidOrderNumber, false)
        ∧ ServiceError.errInvalidOrderNumber.isSentinel = true)
    ∧ (∀ (ledger : List Transaction) (uid : Int) (num : String) (a : ℚ),
      Validate num = true → a ≤ 0 →
        BalanceServiceWithdraw ledger uid num a =
          (ledger,
            some (ServiceError.formattedErr "balance service: invalid withdrawal amount"),
            false)
        ∧ (ServiceError.formattedErr
            "balance service: invalid withdrawal amount").isSentinel = false) := by
  constructor
  · intro ledger uid num a hval
    refine ⟨?_, rfl⟩
    unfold BalanceServiceWithdraw
    rw [hval]
    rfl
  · intro ledger uid num a hval hle
    refine ⟨?_, rfl⟩
    unfold BalanceServiceWithdraw
    rw [hval, if_neg (by simp), if_pos hle]

/-- withdraw_validation_spec evaluated concretely: 12345 fails Luhn and a
zero amount with a valid number takes the generic-error path. -/
theorem withdraw_validation_spec_witness :
    (BalanceServiceWithdraw [] 1 "12345" 100 =
        ([], some ServiceError.errInvalidOrderNumber, false)
      ∧ ServiceError.errInvalidOrderNumber.isSentinel = true)
    ∧ (BalanceServiceWithdraw [] 1 "79927398713" 0 =
        ([], some (ServiceError.formattedErr "balance service: invalid withdrawal amount"),
          false)
      ∧ (ServiceError.formattedErr
          "balance service: invalid withdrawal amount").isSentinel = false) := by
  refine ⟨withdraw_validation_spec.1 [] 1 "12345" 100 (by decide),
    withdraw_validation_spec.2 [] 1 "79927398713" 0 (by decide) (by norm_num)⟩

/-- crashAfterTerminalState is the store state left by a crash between the
worker's terminal status update for an order and the accrual ledger append
for the same order: the order is PROCESSED with its accrual recorded, the
ledger holds no accrual row for it, and the restarted process begins with
empty queues. -/
def crashAfterTerminalState : PoolState :=
  ⟨[⟨1, "79927398713", OrderStatusProcessed, some 500⟩], [], [], [], 100, 100⟩

/-- C9 fails as stated: after a crash between the terminal status update
and the accrual append, the order is PROCESSED, hence outside the NEW or
PROCESSING set that GetPendingOrders returns, so the later scan the claim
relies on re-enqueues nothing: the scan step is a no-op and the accrual row
is still missing. -/
theorem crash_after_terminal_not_rescanned :
    statusOf crashAfterTerminalState.orders "79927398713" = some OrderStatusProcessed
    ∧ hasAccrualForOrder crashAfterTerminalState.ledger "79927398713" = false
    ∧ GetPendingOrders crashAfterTerminalState.orders = []
    ∧ applyPoolStep crashAfterTerminalState PoolStep.scan = crashAfterTerminalState
    ∧ (applyPoolStep crashAfterTerminalState PoolStep.scan).queue = [] :=
  ⟨rfl, rfl, rfl, rfl, rfl⟩

theorem enqueueFold_spec (pend : List Order) (s : PoolState)
    (h : s.queue.length + pend.length ≤ s.queueCap) :
    pend.foldl (fun st o =>
        if st.queue.length < st.queueCap then { st with queue := st.queue ++ [o.number] }
        else st) s
      = { s with queue := s.queue ++ pend.map (fun o => o.number) } := by
  induction pend generalizing s with
  | nil => simp
  | cons o rest ih =>
      have hlt : s.queue.length < s.queueCap := by
        simp only [List.length_cons] at h
        omega
      rw [List.foldl_cons, if_pos hlt]
      rw [ih { s with queue := s.queue ++ [o.number] }
        (by simp only [List.length_append, List.length_cons, List.length_nil] at h ⊢; omega)]
      simp

theorem updateOrderStatus_idempotent (orders : List Order) (num : String)
    (st : OrderStatus) (a : Option ℚ) :
    UpdateOrderStatus (UpdateOrderStatus orders num st a).1 num st a =
      UpdateOrderStatus orders num st a := by
  by_cases hany : orders.any (fun o => o.number == num) = true
  · have hfst : (UpdateOrderStatus orders num st a).1 =
        orders.map (fun o => if o.number == num then
          { o with status := st, accrual := a } else o) := by
      unfold UpdateOrderStatus
      rw [if_pos hany]
    have hsnd : (UpdateOrderStatus orders num st a).2 = true := by
      unfold UpdateOrderStatus
      rw [if_pos hany]
    have hff : ((fun o : Order => if o.number == num then
          { o with status := st, accrual := a } else o) ∘
        (fun o : Order => if o.number == num then
          { o with status := st, accrual := a } else o)) =
        (fun o : Order => if o.number == num then
          { o with status := st, accrual := a } else o) := by
      funext o
      by_cases ho : o.number = num <;> simp [ho]
    have hany2 : ((UpdateOrderStatus orders num st a).1).any
        (fun o => o.number == num) = true := by
      rw [hfst, List.any_map]
      have hc : ((fun o : Order => o.number == num) ∘ (fun o => if o.number == num then
          { o with status := st, accrual := a } else o)) =
          (fun o : Order => o.number == num) := by
        funext o
        by_cases ho : o.number = num <;> simp [ho]
      rw [hc]
      exact hany
    have hmap2 : ((UpdateOrderStatus orders num st a).1).map
        (fun o => if o.number == num then
          ({ o with status := st, accrual := a } : Order) else o) =
        (UpdateOrderStatus orders num st a).1 := by
      rw [hfst, List.map_map, hff]
    have hgen : ∀ X : List Order, X.any (fun o => o.number == num) = true →
        X.map (fun o => if o.number == num then
          ({ o with status := st, accrual := a } : Order) else o) = X →
        UpdateOrderStatus X num st a = (X, true) := by
      intro X h1 h2
      unfold UpdateOrderStatus
      rw [if_pos h1, h2]
    rw [hgen _ hany2 hmap2, ← hsnd]
  · have h1 : UpdateOrderStatus orders num st a = (orders, false) := by
      unfold UpdateOrderStatus
      rw [if_neg hany]
    rw [h1]
    exact h1

theorem pool_stuck (s : PoolState) (hpend : GetPendingOrders s.orders = [])
    (hq : s.queue = []) (hr : s.retryQueue = []) (steps : List PoolStep) :
    applyPoolSteps s steps = s := by
  induction steps with
  | nil => rfl
  | cons step rest ih =>
      have hstep : applyPoolStep s step = s := by
        cases step with
        | scan =>
            show scanPendingOrders s = s
            unfold scanPendingOrders
            rw [hpend]
            rfl
        | work resp now =>
            show (match s.queue with
              | [] => s
              | num :: rest2 => processOrder { s with queue := rest2 } now num resp) = s
            rw [hq]
        | retryMove =>
            show (match s.retryQueue with
              | [] => s
              | (num, _t) :: rest2 =>
                  if s.queue.length < s.queueCap then
                    { s with retryQueue := rest2, queue := s.queue ++ [num] }
                  else { s with retryQueue := rest2 }) = s
            rw [hr]
      show applyPoolSteps (applyPoolStep s step) rest = s
      rw [hstep]
      exact ih

/-- C9 amended: the recovery chain works only for a crash that happens
before the terminal status write.  For every state with room in the work
queue a scan enqueues every NEW or PROCESSING order; UpdateOrderStatus is
idempotent for equal inputs; CreateTransaction deduplicates a re-issued
accrual.  But a crash between the terminal status update and the accrual
append is not recovered: the order is terminal, so once the queues are
empty the state is a fixpoint of every pipeline step and the missing
accrual row is never appended. -/
theorem recovery_spec :
    (∀ s : PoolState,
      s.queue.length + (GetPendingOrders s.orders).length ≤ s.queueCap →
        applyPoolStep s PoolStep.scan =
          { s with queue := s.queue ++ (GetPendingOrders s.orders).map (fun o => o.number) })
    ∧ (∀ (orders : List Order) (num : String) (st : OrderStatus) (a : Option ℚ),
        UpdateOrderStatus (UpdateOrderStatus orders num st a).1 num st a =
          UpdateOrderStatus orders num st a)
    ∧ (∀ (l : List Transaction) (uid : Int) (num : String) (a : ℚ),
        hasAccrualForOrder l num = true →
          CreateTransaction l uid num a TransactionType.accrual =
            (l, CreateTxResult.duplicateAccrual))
    ∧ (∀ s : PoolState, GetPendingOrders s.orders = [] → s.queue = [] →
        s.retryQueue = [] → ∀ steps : List PoolStep,
          applyPoolSteps s steps = s) := by
  refine ⟨?_, updateOrderStatus_idempotent, ?_, pool_stuck⟩
  · intro s h
    exact enqueueFold_spec (GetPendingOrders s.orders) s h
  · intro l uid num a hdup
    unfold CreateTransaction
    rw [if_pos ⟨rfl, hdup⟩]

/-- recovery_spec evaluated concretely: a scan enqueues the one pending
order, a duplicate accrual append is rejected, and the post-crash terminal
state is untouched by a scan followed by a retry move. -/
theorem recovery_spec_witness :
    applyPoolStep oneNewOrderState PoolStep.scan =
      { oneNewOrderState with queue := ["79927398713"] }
    ∧ CreateTransaction [⟨1, "79927398713", 5, TransactionType.accrual⟩]
        1 "79927398713" 5 TransactionType.accrual =
      ([⟨1, "79927398713", 5, TransactionType.accrual⟩], CreateTxResult.duplicateAccrual)
    ∧ applyPoolSteps crashAfterTerminalState [PoolStep.scan, PoolStep.retryMove] =
        crashAfterTerminalState := by
  refine ⟨?_, ?_, ?_⟩
  · rw [recovery_spec.1 oneNewOrderState (by decide)]
    rfl
  · exact recovery_spec.2.2.1 _ 1 "79927398713" 5 (by decide)
  · exact recovery_spec.2.2.2 crashAfterTerminalState rfl rfl rfl
      [PoolStep.scan, PoolStep.retryMove]

end Loyalty
